import Mathlib

/-!
Verification of the marine port detection core: multi-scale DBSCAN candidate
generation, priority-ordered spatial suppression (dedup and merge modes), and
convex-hull-based geometry/categorization, modelled from `src/clustering.py`,
`src/postprocessing.py` and `src/config.py`.

Numeric modelling choices: decimal latitude/longitude, eps values and areas are
rationals (`ℚ`); the great-circle (haversine) metric used by the BallTree is
modelled over `ℝ` as `Prop`-level comparisons, and the BallTree radius query is
injected into the algorithms as a Boolean predicate `near q c` ("the centroid
of `c` lies within 1.5 × eps of `q`"), tied to the real haversine condition by
explicit hypotheses.  External numeric primitives (`np.cos`, `np.hypot`,
`scipy.spatial.ConvexHull`, `sklearn DBSCAN` labels) are injected as function
parameters, exactly at the source's call boundary.
-/

namespace PortDetect

/-! ## Small list utilities shared by the embedding -/

/-- Arithmetic mean of a list of rationals (`np.mean`); 0 on the empty list. -/
def meanQ (l : List ℚ) : ℚ := l.sum / l.length

/-- Maximum of a list of rationals, 0 on the empty list (`np.max`). -/
def maxQ : List ℚ → ℚ
  | [] => 0
  | x :: xs => xs.foldl max x

/-- Minimum of a list of rationals, 0 on the empty list (`np.min`). -/
def minQ : List ℚ → ℚ
  | [] => 0
  | x :: xs => xs.foldl min x

/-- `np.ptp`: peak-to-peak (max − min) of a list of rationals. -/
def ptp (l : List ℚ) : ℚ := maxQ l - minQ l

/-- Pair each list element with its position, starting at `i` (like `enumerate`). -/
def indexList {α : Type} (i : Nat) : List α → List (Nat × α)
  | [] => []
  | x :: xs => (i, x) :: indexList (i + 1) xs

/-- Stable insertion of `x` into `l`: `x` goes after every earlier element `y`
with `le y x = true`, matching the stability contract of Python's `sorted`. -/
def insertStable {α : Type} (le : α → α → Bool) (x : α) : List α → List α
  | [] => [x]
  | y :: ys => if le y x then y :: insertStable le x ys else x :: y :: ys

/-- Stable sort by the Boolean comparison `le` (Python `sorted(l, key=...)`). -/
def sortStable {α : Type} (le : α → α → Bool) (l : List α) : List α :=
  l.foldl (fun acc x => insertStable le x acc) []

/-! ## `src/config.py` -/

/-- `config.PORT_SIZE_CATEGORIES`: ordered table of
(category name, min km², max km², color). -/
def PORT_SIZE_CATEGORIES : List (String × ℚ × ℚ × String) :=
  [("Major Commercial", 2, 15, "red"),
   ("Regional", 1/2, 2, "orange"),
   ("Local/Industrial", 1/10, 1/2, "blue"),
   ("Small Harbor", 1/100, 1/10, "green"),
   ("Uncategorized", 0, 0, "gray")]

/-- `config.MIN_PORT_AREA_KM2` (0.005 km²). -/
def MIN_PORT_AREA_KM2 : ℚ := 5/1000

/-- `config.MAX_PORT_AREA_KM2` (20 km²). -/
def MAX_PORT_AREA_KM2 : ℚ := 20

/-- `config.EARTH_RADIUS_KM`. -/
def EARTH_RADIUS_KM : ℚ := 6371

/-! ## Data model -/

/-- One DBSCAN cluster dict as built by `Clusterer._cluster_one_chunk`:
points are (lat, lon) in degrees. -/
structure RawCluster where
  chunk_id : Nat
  scale : String
  points : List (ℚ × ℚ)
  center_lat : ℚ
  center_lon : ℚ
  point_count : Nat
  eps_km : ℚ
  min_samples_used : Nat
deriving DecidableEq

/-- One merged port dict as built by `PortPostProcessor.merge_clusters`. -/
structure MergedPort where
  center_lat : ℚ
  center_lon : ℚ
  points : List (ℚ × ℚ)
  point_count : Nat
  detected_scale : String
  dbscan_clusters : Nat
deriving DecidableEq

/-- One final port dict as built by `PortPostProcessor.compute_area_and_categorize`. -/
structure FinalPort where
  center_lat : ℚ
  center_lon : ℚ
  points : List (ℚ × ℚ)
  point_count : Nat
  detected_scale : String
  dbscan_clusters : Nat
  area_km2 : ℚ
  max_distance_km : ℚ
  vessel_density : ℚ
  category : String
  color : String
deriving DecidableEq

/-- `s` per-scale config record (eps_km, min_samples, label) from
`config.DBSCAN_CONFIGS`. -/
structure ScaleConfig where
  eps_km : ℚ
  min_samples : Nat
  label : String
deriving DecidableEq

/-! ## Scale priority tables

Both `Clusterer._deduplicate_clusters` (`priority_map`) and
`PortPostProcessor.merge_clusters` (`scale_priority`) build the same dict
`major_ports ↦ 0, regional_ports ↦ 1, local_ports ↦ 2, small_harbors ↦ 3`.
The dict itself is a partial map (`Option`); `.get(key, 99)` is `getD 99`,
while `dict[key]` raising `KeyError` is modelled as `Option` propagation. -/

/-- The priority dict shared by both suppression passes. -/
def scale_priority (s : String) : Option Nat :=
  if s = "major_ports" then some 0
  else if s = "regional_ports" then some 1
  else if s = "local_ports" then some 2
  else if s = "small_harbors" then some 3
  else none

/-- `priority_map.get(c["scale"], 99)` / `scale_priority.get(c["scale"], 99)`. -/
def priorityRank (s : String) : Nat := (scale_priority s).getD 99

/-- The ranking key `(priority, -point_count)` compared lexicographically:
`rankLeB a b` iff the key of `a` is ≤ the key of `b`.  Used (via a stable
sort) by both suppression passes. -/
def rankLeB (a b : RawCluster) : Bool :=
  decide (priorityRank a.scale < priorityRank b.scale) ||
    (decide (priorityRank a.scale = priorityRank b.scale) &&
      decide (-(a.point_count : ℤ) ≤ -(b.point_count : ℤ)))

/-- Ranking key comparison lifted to indexed pairs (the Python code sorts
`range(n)` by the key of `clusters[i]`; original index order breaks ties
through sort stability). -/
def pairRankLeB (a b : Nat × RawCluster) : Bool := rankLeB a.2 b.2

/-! ## `Clusterer._cluster_one_chunk`

The DBSCAN fit itself is external (`sklearn`); it is injected as a labelling
function `dbscan : List (ℚ × ℚ) → List ℤ` returning one label per row, label
−1 meaning noise.  `np.unique` is sorted-unique. -/

/-- Sorted list of distinct labels (`np.unique`). -/
def uniqueSorted (l : List ℤ) : List ℤ :=
  (sortStable (fun a b => decide (a ≤ b)) l).dedup

/-- `Clusterer._cluster_one_chunk`: gate on `min_samples`, run DBSCAN, and
emit one `RawCluster` per non-noise label with centroid = arithmetic mean. -/
def _cluster_one_chunk (dbscan : List (ℚ × ℚ) → List ℤ) (chunk_id : Nat)
    (rows : List (ℚ × ℚ)) (scale_key : String) (cfg : ScaleConfig) :
    List RawCluster :=
  if rows.length < cfg.min_samples then []
  else
    let labels := dbscan rows
    ((uniqueSorted labels).filter (fun l => decide (l ≠ -1))).map (fun l =>
      let pts := ((labels.zip rows).filter (fun p => decide (p.1 = l))).map Prod.snd
      { chunk_id := chunk_id
        scale := scale_key
        points := pts
        center_lat := meanQ (pts.map Prod.fst)
        center_lon := meanQ (pts.map Prod.snd)
        point_count := pts.length
        eps_km := cfg.eps_km
        min_samples_used := cfg.min_samples })

/-! ## `Clusterer._deduplicate_clusters`

The BallTree over all centroids is injected as `near : RawCluster →
RawCluster → Bool`: `near q c = true` iff `tree.query_radius` centred on `q`
with radius `1.5 * q.eps_km / EARTH_RADIUS_KM` returns `c`'s index. -/

/-- The indices marked taken after a winner `c` is processed: every index of
`all` whose cluster lies within `c`'s suppression radius
(`taken[neighbors] = True`). -/
def marks (near : RawCluster → RawCluster → Bool)
    (all : List (Nat × RawCluster)) (c : RawCluster) : List Nat :=
  (all.filter (fun p => near c p.2)).map Prod.fst

/-- The suppression walk of `_deduplicate_clusters`: visit `rest` (already in
ranking order), skip consumed indices, emit survivors, and mark each
survivor's radius-query neighbours as taken. -/
def dedupGo (near : RawCluster → RawCluster → Bool)
    (all : List (Nat × RawCluster)) :
    List (Nat × RawCluster) → List Nat → List RawCluster
  | [], _ => []
  | p :: rest, taken =>
    if p.1 ∈ taken then dedupGo near all rest taken
    else p.2 :: dedupGo near all rest (taken ++ marks near all p.2)

/-- `Clusterer._deduplicate_clusters`: stable-sort the indexed clusters by the
ranking key, then run the greedy suppression walk in dedup mode. -/
def _deduplicate_clusters (near : RawCluster → RawCluster → Bool)
    (clusters : List RawCluster) : List RawCluster :=
  if clusters = [] then []
  else
    let indexed := indexList 0 clusters
    dedupGo near indexed (sortStable pairRankLeB indexed) []

/-! ## `PortPostProcessor.merge_clusters`

Same walk, but each winner absorbs the member points of every neighbour
returned by the radius query.  `primary_scale` is selected by
`sorted(group_scales, key=lambda x: (scale_priority[x[0]], -x[1]))[0][0]` —
note the *raising* dict access `scale_priority[x[0]]` (`KeyError` on an
unknown scale key) and the raising `[0]` on an empty group; both exception
paths are modelled as `none` and propagate out of the whole call. -/

/-- Ranking key comparison on `(scale, point_count)` pairs, defined when every
scale key is present in `scale_priority`. -/
def groupKeyLeB (a b : String × Nat) : Bool :=
  decide (priorityRank a.1 < priorityRank b.1) ||
    (decide (priorityRank a.1 = priorityRank b.1) &&
      decide (-(a.2 : ℤ) ≤ -(b.2 : ℤ)))

/-- The `primary_scale` selection of `merge_clusters`; `none` models the
`KeyError` on an unknown scale key (the sort key is evaluated on every group
member) and the `IndexError` on an empty group. -/
def primary_scale (group_scales : List (String × Nat)) : Option String :=
  if group_scales.all (fun p => (scale_priority p.1).isSome) then
    ((sortStable groupKeyLeB group_scales).head?).map Prod.fst
  else none

/-- Absorb one winner's radius-query group into a `MergedPort` (steps 6–8 of
`merge_clusters`); `none` models the exception paths (`np.vstack` of an empty
group, `primary_scale` failures). -/
def mergeStep (near : RawCluster → RawCluster → Bool)
    (all : List (Nat × RawCluster)) (c : RawCluster) : Option MergedPort :=
  let neighbors := all.filter (fun p => near c p.2)
  let group_points := (neighbors.map (fun p => p.2.points)).flatten
  let total_point_count := (neighbors.map (fun p => p.2.point_count)).sum
  let group_scales := neighbors.map (fun p => (p.2.scale, p.2.point_count))
  if neighbors = [] then none
  else
    match primary_scale group_scales with
    | none => none
    | some sc =>
      some { center_lat := meanQ (group_points.map Prod.fst)
             center_lon := meanQ (group_points.map Prod.snd)
             points := group_points
             point_count := total_point_count
             detected_scale := sc
             dbscan_clusters := neighbors.length }

/-- The suppression walk of `merge_clusters` (merge mode): winners absorb
their whole radius-query group; an exception in any step aborts the call. -/
def mergeGo (near : RawCluster → RawCluster → Bool)
    (all : List (Nat × RawCluster)) :
    List (Nat × RawCluster) → List Nat → Option (List MergedPort)
  | [], _ => some []
  | p :: rest, taken =>
    if p.1 ∈ taken then mergeGo near all rest taken
    else
      match mergeStep near all p.2,
            mergeGo near all rest (taken ++ marks near all p.2) with
      | some m, some ms => some (m :: ms)
      | _, _ => none

/-- `PortPostProcessor.merge_clusters`: `some` list of merged ports, or
`none` when an exception escapes the pass. -/
def merge_clusters (near : RawCluster → RawCluster → Bool)
    (clusters : List RawCluster) : Option (List MergedPort) :=
  if clusters = [] then some []
  else
    let indexed := indexList 0 clusters
    mergeGo near indexed (sortStable pairRankLeB indexed) []

/-! ## `PortPostProcessor.compute_area_and_categorize`

`scipy.spatial.ConvexHull` is injected as `hull : List (ℚ × ℚ) → Option (List
(ℚ × ℚ))` returning the hull vertex points (`none` = exception, caught and
the port skipped).  `np.cos(np.radians ·))` on degrees is injected as
`cosdeg : ℚ → ℚ`, and `np.hypot` as `hyp : ℚ → ℚ → ℚ`. -/

/-- First matching size bucket in table order, else the "Uncategorized"
fallback (category, color). -/
def categorize (area_km2 : ℚ) : String × String :=
  match PORT_SIZE_CATEGORIES.find?
      (fun c => decide (c.2.1 ≤ area_km2) && decide (area_km2 ≤ c.2.2.1)) with
  | some c => (c.1, c.2.2.2)
  | none => ("Uncategorized", "gray")

/-- Maximum pairwise planar hull-vertex distance (lat scaled by 111 km/deg,
lon additionally by the cosine correction), seeded from 0. -/
def maxPairDist (hyp : ℚ → ℚ → ℚ) (correction : ℚ) : List (ℚ × ℚ) → ℚ
  | [] => 0
  | p :: rest =>
    (rest.map (fun q =>
      hyp ((p.1 - q.1) * 111) ((p.2 - q.2) * 111 * correction))).foldl max
      (maxPairDist hyp correction rest)

/-- The per-port body of `compute_area_and_categorize`: `none` when the port
is skipped (fewer than 3 points, hull failure, or area outside the global
bounds); otherwise the `FinalPort` dict that is appended to `out_ports`. -/
def processPort (hull : List (ℚ × ℚ) → Option (List (ℚ × ℚ)))
    (cosdeg : ℚ → ℚ) (hyp : ℚ → ℚ → ℚ) (port : MergedPort) : Option FinalPort :=
  if port.points.length < 3 then none
  else
    match hull port.points with
    | none => none
    | some hull_pts =>
      let latr := ptp (hull_pts.map Prod.fst)
      let lonr := ptp (hull_pts.map Prod.snd)
      let avg_lat := meanQ (hull_pts.map Prod.fst)
      let correction := cosdeg avg_lat
      let area_km2 := latr * (lonr * correction) * 111 * 111
      let max_d := maxPairDist hyp correction hull_pts
      let density := if 0 < area_km2 then (port.point_count : ℚ) / area_km2 else 0
      let cc := categorize area_km2
      if MIN_PORT_AREA_KM2 ≤ area_km2 ∧ area_km2 ≤ MAX_PORT_AREA_KM2 then
        some { center_lat := port.center_lat
               center_lon := port.center_lon
               points := port.points
               point_count := port.point_count
               detected_scale := port.detected_scale
               dbscan_clusters := port.dbscan_clusters
               area_km2 := area_km2
               max_distance_km := max_d
               vessel_density := density
               category := cc.1
               color := cc.2 }
      else none

/-- Descending-by-area comparison used by `out_ports.sort(key=...,
reverse=True)` (stable). -/
def areaGeB (a b : FinalPort) : Bool := decide (b.area_km2 ≤ a.area_km2)

/-- `PortPostProcessor.compute_area_and_categorize`: process every merged
port, keep the survivors, and stable-sort them by area descending. -/
def compute_area_and_categorize (hull : List (ℚ × ℚ) → Option (List (ℚ × ℚ)))
    (cosdeg : ℚ → ℚ) (hyp : ℚ → ℚ → ℚ) (final_ports : List MergedPort) :
    List FinalPort :=
  if final_ports = [] then []
  else sortStable areaGeB (final_ports.filterMap (processPort hull cosdeg hyp))

/-! ## The haversine metric of the BallTree

`BallTree(coords_rad, metric="haversine")` computes the great-circle central
angle `2·arcsin √(sin²(Δφ/2) + cos φ₁ cos φ₂ sin²(Δλ/2))` between two
(lat, lon) points given in radians; `query_radius(x, r)` returns every index
at angle ≤ `r` from `x`.  Coordinates are converted from degrees by `·π/180`.
The comparisons are modelled as `Prop`s over `ℝ`. -/

/-- The haversine central angle between two centroids given in degrees is
`≤ r` (radians). `query_radius` membership with radius `r`. -/
def haversineLE (lat1 lon1 lat2 lon2 r : ℚ) : Prop :=
  2 * Real.arcsin (Real.sqrt
      (Real.sin ((((lat2 : ℝ) - (lat1 : ℝ)) * Real.pi / 180) / 2) ^ 2 +
        Real.cos ((lat1 : ℝ) * Real.pi / 180) * Real.cos ((lat2 : ℝ) * Real.pi / 180) *
          Real.sin ((((lon2 : ℝ) - (lon1 : ℝ)) * Real.pi / 180) / 2) ^ 2)) ≤ (r : ℝ)

/-- The haversine central angle between two centroids given in degrees is
strictly less than `r` (radians). -/
def haversineLT (lat1 lon1 lat2 lon2 r : ℚ) : Prop :=
  2 * Real.arcsin (Real.sqrt
      (Real.sin ((((lat2 : ℝ) - (lat1 : ℝ)) * Real.pi / 180) / 2) ^ 2 +
        Real.cos ((lat1 : ℝ) * Real.pi / 180) * Real.cos ((lat2 : ℝ) * Real.pi / 180) *
          Real.sin ((((lon2 : ℝ) - (lon1 : ℝ)) * Real.pi / 180) / 2) ^ 2)) < (r : ℝ)

/-- The suppression radius of a cluster, in radians:
`1.5 * eps_km / EARTH_RADIUS_KM`. -/
def suppressionRadius (c : RawCluster) : ℚ := 3/2 * c.eps_km / EARTH_RADIUS_KM

/-- `near` agrees, on members of `clusters`, with the BallTree radius query:
`near q c = true` iff `c`'s centroid lies within `q`'s suppression radius of
`q`'s centroid (inclusive, as `query_radius` is). -/
def NearFaithful (near : RawCluster → RawCluster → Bool)
    (clusters : List RawCluster) : Prop :=
  ∀ c1 ∈ clusters, ∀ c2 ∈ clusters,
    (near c1 c2 = true ↔
      haversineLE c1.center_lat c1.center_lon c2.center_lat c2.center_lon
        (suppressionRadius c1))

/-- `le` is total as a Boolean comparison. -/
def TotalB {α : Type} (le : α → α → Bool) : Prop :=
  ∀ a b, le a b = true ∨ le b a = true

/-- `le` is transitive as a Boolean comparison. -/
def TransB {α : Type} (le : α → α → Bool) : Prop :=
  ∀ a b c, le a b = true → le b c = true → le a c = true

/-! ## Concrete candidates used by the claims -/

/-- P3 candidate A: major_ports, eps 1.0 km, 500 points, centroid
(56.000°, 10.000°). -/
def candA : RawCluster :=
  { chunk_id := 0, scale := "major_ports", points := [(56, 10)],
    center_lat := 56, center_lon := 10, point_count := 500,
    eps_km := 1, min_samples_used := 200 }

/-- P3 candidate B: small_harbors, eps 0.1 km, 9999 points, centroid
(56.005°, 10.005°). -/
def candB : RawCluster :=
  { chunk_id := 1, scale := "small_harbors", points := [(56.005, 10.005)],
    center_lat := 56.005, center_lon := 10.005, point_count := 9999,
    eps_km := 0.1, min_samples_used := 30 }

/-- A candidate whose scale key is absent from the priority table. -/
def candW : RawCluster :=
  { chunk_id := 0, scale := "ferry_terminals", points := [(57, 11)],
    center_lat := 57, center_lon := 11, point_count := 42,
    eps_km := 0.2, min_samples_used := 30 }

/-- A radius query that reports every candidate as a neighbour (all
candidates at one centroid). -/
def nearAll : RawCluster → RawCluster → Bool := fun _ _ => true

/-- Meridian candidate at (0°, 0°), major_ports, 100 points. -/
def cM0 : RawCluster :=
  { chunk_id := 0, scale := "major_ports", points := [(0, 0)],
    center_lat := 0, center_lon := 0, point_count := 100,
    eps_km := 1, min_samples_used := 200 }

/-- Meridian candidate at (1°, 0°) (≈ 111 km away), major_ports, 90 points. -/
def cM1 : RawCluster :=
  { chunk_id := 0, scale := "major_ports", points := [(1, 0)],
    center_lat := 1, center_lon := 0, point_count := 90,
    eps_km := 1, min_samples_used := 200 }

/-- Radius query by centroid-latitude equality: the exact BallTree behaviour
for `cM0`/`cM1`, whose centroids are ≈ 111 km apart on one meridian. -/
def nearMer : RawCluster → RawCluster → Bool :=
  fun a b => decide (a.center_lat = b.center_lat)

/-- The BallTree radius query on `[candA, candB]`: A reaches everything
(B is 0.64 km away, within A's 1.5 km radius), B reaches only itself
(A is far outside B's 0.15 km radius). -/
def nearP3 : RawCluster → RawCluster → Bool :=
  fun c1 c2 => decide (c1 = candA) || decide (c1 = c2)

/-- The merged port produced from the singleton candidate pool `[candA]`. -/
def portA : MergedPort :=
  { center_lat := 56, center_lon := 10, points := [(56, 10)],
    point_count := 500, detected_scale := "major_ports", dbscan_clusters := 1 }

/-! ## C9: merge-mode double absorption

Three candidates on one meridian: `cX` (0°), `cZ` (0.0135°) and `cY`
(0.027°).  `cZ` lies within the 1.95 km radius of both majors `cX` and `cY`,
which do not reach each other. -/

/-- Major candidate at (0°, 0°), eps 1.3, 100 points. -/
def cX : RawCluster :=
  { chunk_id := 0, scale := "major_ports", points := [(0, 0)],
    center_lat := 0, center_lon := 0, point_count := 100,
    eps_km := 13/10, min_samples_used := 200 }

/-- Major candidate at (0.027°, 0°), eps 1.3, 90 points. -/
def cY : RawCluster :=
  { chunk_id := 1, scale := "major_ports", points := [(27/1000, 0)],
    center_lat := 27/1000, center_lon := 0, point_count := 90,
    eps_km := 13/10, min_samples_used := 200 }

/-- Small-harbor candidate at (0.0135°, 0°), midway between `cX` and `cY`,
eps 0.2, 7 points. -/
def cZ : RawCluster :=
  { chunk_id := 2, scale := "small_harbors", points := [(27/2000, 0)],
    center_lat := 27/2000, center_lon := 0, point_count := 7,
    eps_km := 1/5, min_samples_used := 30 }

/-- The BallTree radius query on `[cX, cY, cZ]`: each major reaches itself
and `cZ`; `cZ` reaches only itself. -/
def nearC9 : RawCluster → RawCluster → Bool := fun c1 c2 =>
  (decide (c1 = cX) && (decide (c2 = cX) || decide (c2 = cZ))) ||
    (decide (c1 = cY) && (decide (c2 = cY) || decide (c2 = cZ))) ||
    (decide (c1 = cZ) && decide (c2 = cZ))

/-- The merged port emitted for winner `cX`: it absorbs `cZ`. -/
def portX : MergedPort :=
  { center_lat := 27/4000, center_lon := 0, points := [(0, 0), (27/2000, 0)],
    point_count := 107, detected_scale := "major_ports", dbscan_clusters := 2 }

/-- The merged port emitted for winner `cY`: it absorbs `cZ` again, even
though `cZ` was already consumed by `cX`. -/
def portY : MergedPort :=
  { center_lat := 81/4000, center_lon := 0, points := [(27/1000, 0), (27/2000, 0)],
    point_count := 97, detected_scale := "major_ports", dbscan_clusters := 2 }

/-! ## Concrete geometry runs used by the witnesses -/

/-- The injected convex hull on point sets that are already hull vertex
lists: the identity. -/
def hullW : List (ℚ × ℚ) → Option (List (ℚ × ℚ)) := fun l => some l

/-- Injected cosine for hulls at the equator (`cos 0 = 1`). -/
def cosW : ℚ → ℚ := fun _ => 1

/-- Injected hypot stub (max_distance_km is irrelevant to the claims). -/
def hypW : ℚ → ℚ → ℚ := fun _ _ => 0

/-- A merged port near the equator whose hull is a 0.04° × 0.04° right
triangle: computed area 19.7136 km² — inside the global bounds but in the
(15, 20) bucket gap. -/
def portW : MergedPort :=
  { center_lat := 0, center_lon := 0,
    points := [(0, 0), (1/25, 0), (0, 1/25)],
    point_count := 50, detected_scale := "major_ports", dbscan_clusters := 1 }

/-- The FinalPort emitted for `portW`. -/
def fpW : FinalPort :=
  { center_lat := 0, center_lon := 0,
    points := [(0, 0), (1/25, 0), (0, 1/25)],
    point_count := 50, detected_scale := "major_ports", dbscan_clusters := 1,
    area_km2 := 12321/625, max_distance_km := 0,
    vessel_density := 31250/12321,
    category := "Uncategorized", color := "gray" }

/-- A merged port whose hull has latitude range 0.01°, longitude range 0.01°
and mean hull latitude 56°. -/
def portC6 : MergedPort :=
  { center_lat := 56, center_lon := 10,
    points := [(11199/200, 10), (11201/200, 10), (56, 1001/100)],
    point_count := 300, detected_scale := "regional_ports", dbscan_clusters := 1 }

/-- Injected cosine evaluating `cos 56°` to the 4-decimal float 0.5587. -/
def cosC6 : ℚ → ℚ := fun _ => 5587/10000

/-- `haversineLT` implies `haversineLE` at the same radius. -/
theorem haversineLT_le {lat1 lon1 lat2 lon2 r : ℚ}
    (h : haversineLT lat1 lon1 lat2 lon2 r) : haversineLE lat1 lon1 lat2 lon2 r :=
  le_of_lt h

/-! ## Generic facts about the stable sort -/

theorem mem_insertStable {α : Type} (le : α → α → Bool) (x a : α) :
    ∀ l : List α, a ∈ insertStable le x l ↔ a = x ∨ a ∈ l := by
  intro l
  induction l with
  | nil => simp [insertStable]
  | cons y ys ih =>
    by_cases h : le y x = true
    · simp only [insertStable, if_pos h, List.mem_cons, ih]
      tauto
    · simp only [insertStable, if_neg h, List.mem_cons]

theorem mem_sortStable {α : Type} (le : α → α → Bool) (l : List α) (a : α) :
    a ∈ sortStable le l ↔ a ∈ l := by
  suffices h : ∀ (l acc : List α),
      (a ∈ l.foldl (fun acc x => insertStable le x acc) acc ↔ a ∈ acc ∨ a ∈ l) by
    have := h l []
    simpa [sortStable] using this
  intro l
  induction l with
  | nil => simp
  | cons x xs ih =>
    intro acc
    rw [List.foldl_cons, ih, mem_insertStable]
    simp only [List.mem_cons]
    tauto

theorem insertStable_pairwise {α : Type} {le : α → α → Bool}
    (htot : TotalB le) (htr : TransB le) (x : α) :
    ∀ {l : List α}, l.Pairwise (fun a b => le a b = true) →
      (insertStable le x l).Pairwise (fun a b => le a b = true) := by
  intro l
  induction l with
  | nil => simp [insertStable]
  | cons y ys ih =>
    intro hp
    rcases List.pairwise_cons.1 hp with ⟨hy, hys⟩
    by_cases h : le y x = true
    · rw [insertStable, if_pos h]
      refine List.pairwise_cons.2 ⟨?_, ih hys⟩
      intro b hb
      rcases (mem_insertStable le x b ys).1 hb with rfl | hb
      · exact h
      · exact hy b hb
    · rw [insertStable, if_neg h]
      have hxy : le x y = true := (htot x y).resolve_right (by simpa using h)
      refine List.pairwise_cons.2 ⟨?_, hp⟩
      intro b hb
      rcases List.mem_cons.1 hb with rfl | hb
      · exact hxy
      · exact htr x y b hxy (hy b hb)

theorem sortStable_pairwise {α : Type} {le : α → α → Bool}
    (htot : TotalB le) (htr : TransB le) (l : List α) :
    (sortStable le l).Pairwise (fun a b => le a b = true) := by
  suffices h : ∀ (l acc : List α), acc.Pairwise (fun a b => le a b = true) →
      (l.foldl (fun acc x => insertStable le x acc) acc).Pairwise
        (fun a b => le a b = true) by
    exact h l [] (List.Pairwise.nil)
  intro l
  induction l with
  | nil => intro acc h; simpa using h
  | cons x xs ih =>
    intro acc h
    rw [List.foldl_cons]
    exact ih _ (insertStable_pairwise htot htr x h)

theorem insertStable_append {α : Type} (le : α → α → Bool) (x : α) :
    ∀ {l : List α}, (∀ y ∈ l, le y x = true) → insertStable le x l = l ++ [x] := by
  intro l
  induction l with
  | nil => intro _; rfl
  | cons y ys ih =>
    intro h
    rw [insertStable, if_pos (h y (List.mem_cons_self y ys)), ih]
    · rfl
    · intro z hz; exact h z (List.mem_cons_of_mem y hz)

/-- A list already sorted (pairwise) by `le` is a fixed point of the stable
sort — the stability and order guarantees of Python's `sorted`. -/
theorem sortStable_of_pairwise {α : Type} {le : α → α → Bool} :
    ∀ {l : List α}, l.Pairwise (fun a b => le a b = true) → sortStable le l = l := by
  suffices h : ∀ (l acc : List α), (acc ++ l).Pairwise (fun a b => le a b = true) →
      l.foldl (fun acc x => insertStable le x acc) acc = acc ++ l by
    intro l hp
    simpa [sortStable] using h l [] (by simpa using hp)
  intro l
  induction l with
  | nil => intro acc _; simp
  | cons x xs ih =>
    intro acc h
    rw [List.foldl_cons, insertStable_append]
    · have := ih (acc ++ [x]) (by simpa using h)
      simpa using this
    · intro y hy
      have := List.pairwise_append.1 h
      exact this.2.2 y hy x (List.mem_cons_self x xs)

/-! ## Facts about `indexList` -/

theorem indexList_map_snd {α : Type} : ∀ (i : Nat) (l : List α),
    (indexList i l).map Prod.snd = l := by
  intro i l
  induction l generalizing i with
  | nil => rfl
  | cons x xs ih => simp [indexList, ih]

theorem mem_indexList_fst_ge {α : Type} {j : Nat} {a : α} :
    ∀ {i : Nat} {l : List α}, (j, a) ∈ indexList i l → i ≤ j := by
  intro i l
  induction l generalizing i with
  | nil => intro h; simp [indexList] at h
  | cons x xs ih =>
    intro h
    rcases List.mem_cons.1 h with h | h
    · exact le_of_eq (congrArg Prod.fst h).symm
    · exact le_of_lt (Nat.lt_of_succ_le (ih h))

theorem indexList_fst_nodup {α : Type} : ∀ (i : Nat) (l : List α),
    ((indexList i l).map Prod.fst).Nodup := by
  intro i l
  induction l generalizing i with
  | nil => simp [indexList]
  | cons x xs ih =>
    simp only [indexList, List.map_cons, List.nodup_cons]
    refine ⟨?_, ih (i + 1)⟩
    intro hmem
    rcases List.mem_map.1 hmem with ⟨p, hp, hfst⟩
    have : i + 1 ≤ p.1 := mem_indexList_fst_ge (by rwa [← Prod.mk.eta (p := p)] at hp)
    omega

theorem mem_indexList_snd {α : Type} {p : Nat × α} :
    ∀ {i : Nat} {l : List α}, p ∈ indexList i l → p.2 ∈ l := by
  intro i l
  induction l generalizing i with
  | nil => intro h; simp [indexList] at h
  | cons x xs ih =>
    intro h
    rcases List.mem_cons.1 h with h | h
    · subst h; exact List.mem_cons_self _ _
    · exact List.mem_cons_of_mem _ (ih h)

theorem indexList_pairwise {α : Type} {R : α → α → Prop} :
    ∀ {l : List α} {i : Nat}, l.Pairwise R →
      (indexList i l).Pairwise (fun p q => R p.2 q.2) := by
  intro l
  induction l with
  | nil => intro i _; simp [indexList]
  | cons x xs ih =>
    intro i hp
    rcases List.pairwise_cons.1 hp with ⟨hx, hxs⟩
    refine List.pairwise_cons.2 ⟨?_, ih hxs⟩
    intro q hq
    exact hx q.2 (mem_indexList_snd hq)

/-- A pair with a first component equal to a member pair's is that pair, when
first components are nodup. -/
theorem nodup_fst_eq {α : Type} {all : List (Nat × α)}
    (hnd : (all.map Prod.fst).Nodup) {j : Nat} {a b : α}
    (ha : (j, a) ∈ all) (hb : (j, b) ∈ all) : a = b := by
  induction all with
  | nil => simp at ha
  | cons p rest ih =>
    simp only [List.map_cons, List.nodup_cons] at hnd
    rcases List.mem_cons.1 ha with ha1 | ha1 <;> rcases List.mem_cons.1 hb with hb1 | hb1
    · have h := ha1.trans hb1.symm
      injection h with h1 h2
    · exact absurd (List.mem_map.2 ⟨(j, b), hb1, by rw [← ha1]⟩) hnd.1
    · exact absurd (List.mem_map.2 ⟨(j, a), ha1, by rw [← hb1]⟩) hnd.1
    · exact ih hnd.2 ha1 hb1

/-! ## Invariants of the dedup suppression walk -/

/-- Every survivor of the walk originates from an unconsumed entry of `rest`. -/
theorem dedupGo_mem {near : RawCluster → RawCluster → Bool}
    {all : List (Nat × RawCluster)} {c : RawCluster} :
    ∀ {rest : List (Nat × RawCluster)} {taken : List Nat},
      c ∈ dedupGo near all rest taken → ∃ j, (j, c) ∈ rest ∧ j ∉ taken := by
  intro rest
  induction rest with
  | nil => intro taken h; simp [dedupGo] at h
  | cons p rest ih =>
    intro taken h
    rw [dedupGo] at h
    by_cases hp : p.1 ∈ taken
    · rw [if_pos hp] at h
      rcases ih h with ⟨j, hj, hnotin⟩
      exact ⟨j, List.mem_cons_of_mem _ hj, hnotin⟩
    · rw [if_neg hp] at h
      rcases List.mem_cons.1 h with rfl | h
      · exact ⟨p.1, List.mem_cons_self _ _, hp⟩
      · rcases ih h with ⟨j, hj, hnotin⟩
        refine ⟨j, List.mem_cons_of_mem _ hj, fun hmem => hnotin ?_⟩
        exact List.mem_append_left _ hmem

/-- Key invariant of dedup suppression: the emitted survivors are pairwise
non-near in processing order — once a winner is emitted, everything inside
its suppression radius is consumed and can never be emitted later. -/
theorem dedupGo_pairwise {near : RawCluster → RawCluster → Bool}
    {all : List (Nat × RawCluster)} :
    ∀ {rest : List (Nat × RawCluster)} {taken : List Nat},
      (∀ p ∈ rest, p ∈ all) →
      (dedupGo near all rest taken).Pairwise (fun a b => near a b = false) := by
  intro rest
  induction rest with
  | nil => intro taken _; simp [dedupGo]
  | cons p rest ih =>
    intro taken hsub
    rw [dedupGo]
    have hsub2 : ∀ q ∈ rest, q ∈ all := fun q hq => hsub q (List.mem_cons_of_mem _ hq)
    by_cases hp : p.1 ∈ taken
    · rw [if_pos hp]; exact ih hsub2
    · rw [if_neg hp]
      refine List.pairwise_cons.2 ⟨?_, ih hsub2⟩
      intro b hb
      rcases dedupGo_mem hb with ⟨j, hj, hnotin⟩
      by_contra hnear
      have hnear2 : near p.2 b = true := by
        cases h : near p.2 b
        · exact absurd h hnear
        · rfl
      have hjall : (j, b) ∈ all := hsub2 (j, b) hj
      have : j ∈ marks near all p.2 :=
        List.mem_map.2 ⟨(j, b), List.mem_filter.2 ⟨hjall, hnear2⟩, rfl⟩
      exact hnotin (List.mem_append_right _ this)

/-- The survivors are a subsequence of the processing order. -/
theorem dedupGo_sublist {near : RawCluster → RawCluster → Bool}
    {all : List (Nat × RawCluster)} :
    ∀ (rest : List (Nat × RawCluster)) (taken : List Nat),
      (dedupGo near all rest taken).Sublist (rest.map Prod.snd) := by
  intro rest
  induction rest with
  | nil => intro taken; simp [dedupGo]
  | cons p rest ih =>
    intro taken
    rw [dedupGo]
    by_cases hp : p.1 ∈ taken
    · rw [if_pos hp]
      exact (ih taken).trans (List.sublist_cons_self _ _)
    · rw [if_neg hp]
      exact List.Sublist.cons₂ _ (ih _)

/-- When nothing in `rest` is consumed yet and the entries of `rest` are
already pairwise non-near, the walk emits all of `rest` unchanged. -/
theorem dedupGo_all_survive {near : RawCluster → RawCluster → Bool}
    {all : List (Nat × RawCluster)} (hnd : (all.map Prod.fst).Nodup) :
    ∀ {rest : List (Nat × RawCluster)} {taken : List Nat},
      (∀ p ∈ rest, p ∈ all) →
      (∀ p ∈ rest, p.1 ∉ taken) →
      rest.Pairwise (fun p q => near p.2 q.2 = false) →
      dedupGo near all rest taken = rest.map Prod.snd := by
  intro rest
  induction rest with
  | nil => intro taken _ _ _; rfl
  | cons p rest ih =>
    intro taken hsub hfree hpw
    rcases List.pairwise_cons.1 hpw with ⟨hhead, htail⟩
    rw [dedupGo, if_neg (hfree p (List.mem_cons_self _ _)), List.map_cons]
    congr 1
    refine ih (fun q hq => hsub q (List.mem_cons_of_mem _ hq)) ?_ htail
    intro q hq hqmem
    rcases List.mem_append.1 hqmem with hq1 | hq1
    · exact hfree q (List.mem_cons_of_mem _ hq) hq1
    · rcases List.mem_map.1 hq1 with ⟨r, hr, hfst⟩
      have hrnear : near p.2 r.2 = true := (List.mem_filter.1 hr).2
      have hrall : r ∈ all := (List.mem_filter.1 hr).1
      have hqall : q ∈ all := hsub q (List.mem_cons_of_mem _ hq)
      have : r.2 = q.2 := by
        have h1 : (q.1, r.2) ∈ all := by rw [← hfst, Prod.mk.eta]; exact hrall
        have h2 : (q.1, q.2) ∈ all := by rw [Prod.mk.eta]; exact hqall
        exact nodup_fst_eq hnd h1 h2
      rw [this] at hrnear
      rw [hhead q (hq)] at hrnear
      exact Bool.false_ne_true hrnear

/-! ## The concrete ranking comparisons are total preorders -/

theorem rankLeB_total : TotalB rankLeB := by
  intro a b
  simp only [rankLeB, Bool.or_eq_true, Bool.and_eq_true, decide_eq_true_eq]
  omega

theorem rankLeB_trans : TransB rankLeB := by
  intro a b c
  simp only [rankLeB, Bool.or_eq_true, Bool.and_eq_true, decide_eq_true_eq]
  omega

theorem pairRankLeB_total : TotalB pairRankLeB := fun a b => rankLeB_total a.2 b.2

theorem pairRankLeB_trans : TransB pairRankLeB :=
  fun a b c h1 h2 => rankLeB_trans a.2 b.2 c.2 h1 h2

theorem areaGeB_total : TotalB areaGeB := by
  intro a b
  simp only [areaGeB, decide_eq_true_eq]
  exact le_total b.area_km2 a.area_km2

theorem areaGeB_trans : TransB areaGeB := by
  intro a b c h1 h2
  simp only [areaGeB, decide_eq_true_eq] at h1 h2 ⊢
  exact le_trans h2 h1

/-! ## Top-level dedup invariants -/

/-- Survivors of dedup suppression are pairwise non-near in emission
(= priority) order, for any injected radius-query predicate. -/
theorem dedup_pairwise_not_near (near : RawCluster → RawCluster → Bool)
    (clusters : List RawCluster) :
    (_deduplicate_clusters near clusters).Pairwise (fun a b => near a b = false) := by
  rw [_deduplicate_clusters]
  by_cases h : clusters = []
  · rw [if_pos h]; exact List.Pairwise.nil
  · rw [if_neg h]
    exact dedupGo_pairwise (fun p hp => (mem_sortStable _ _ _).1 hp)

/-- Survivors of dedup suppression come out sorted by the ranking key. -/
theorem dedup_rank_sorted (near : RawCluster → RawCluster → Bool)
    (clusters : List RawCluster) :
    (_deduplicate_clusters near clusters).Pairwise (fun a b => rankLeB a b = true) := by
  rw [_deduplicate_clusters]
  by_cases h : clusters = []
  · rw [if_pos h]; exact List.Pairwise.nil
  · rw [if_neg h]
    have hsorted := sortStable_pairwise pairRankLeB_total pairRankLeB_trans
      (indexList 0 clusters)
    have hmap : ((sortStable pairRankLeB (indexList 0 clusters)).map
        Prod.snd).Pairwise (fun a b => rankLeB a b = true) := by
      rw [List.pairwise_map]
      exact hsorted
    exact hmap.sublist (dedupGo_sublist _ _)

/-- Every dedup survivor is one of the input clusters, unchanged. -/
theorem dedup_mem {near : RawCluster → RawCluster → Bool}
    {clusters : List RawCluster} {c : RawCluster}
    (h : c ∈ _deduplicate_clusters near clusters) : c ∈ clusters := by
  rw [_deduplicate_clusters] at h
  by_cases hne : clusters = []
  · rw [if_pos hne] at h; simp at h
  · rw [if_neg hne] at h
    rcases dedupGo_mem h with ⟨j, hj, _⟩
    exact mem_indexList_snd ((mem_sortStable _ _ _).1 hj)

/-- Dedup suppression is idempotent: re-running it over its own output (each
survivor queried with its own eps) consumes nothing. -/
theorem dedup_idempotent (near : RawCluster → RawCluster → Bool)
    (clusters : List RawCluster) :
    _deduplicate_clusters near (_deduplicate_clusters near clusters) =
      _deduplicate_clusters near clusters := by
  set out := _deduplicate_clusters near clusters with hout
  by_cases h : out = []
  · rw [h, _deduplicate_clusters, if_pos rfl]
  · rw [_deduplicate_clusters, if_neg h]
    have hsorted : (indexList 0 out).Pairwise (fun p q => pairRankLeB p q = true) :=
      indexList_pairwise (dedup_rank_sorted near clusters)
    show dedupGo near (indexList 0 out) (sortStable pairRankLeB (indexList 0 out)) [] = out
    rw [sortStable_of_pairwise hsorted]
    have hpw : (indexList 0 out).Pairwise (fun p q => near p.2 q.2 = false) :=
      indexList_pairwise (dedup_pairwise_not_near near clusters)
    rw [dedupGo_all_survive (indexList_fst_nodup 0 out) (fun p hp => hp)
      (fun p _ hmem => (List.not_mem_nil p.1) hmem) hpw]
    exact indexList_map_snd 0 out

/-! ## Real-analysis toolkit for haversine facts -/

theorem arcsin_le_mul_self {u : ℝ} (h0 : 0 ≤ u) (h1 : u ≤ 1) :
    Real.arcsin u ≤ Real.pi / 2 * u := by
  have hpi := Real.pi_pos
  have hs : Real.sin (Real.arcsin u) = u := Real.sin_arcsin (by linarith) h1
  have ht0 : 0 ≤ Real.arcsin u := Real.arcsin_nonneg.2 h0
  have ht2 : Real.arcsin u ≤ Real.pi / 2 := Real.arcsin_le_pi_div_two u
  have hj := Real.mul_le_sin ht0 ht2
  rw [hs] at hj
  have h3 : 2 * Real.arcsin u ≤ u * Real.pi := by
    rwa [div_mul_eq_mul_div, div_le_iff₀ hpi] at hj
  linarith

theorem self_le_arcsin {u : ℝ} (h0 : 0 ≤ u) (h1 : u ≤ 1) : u ≤ Real.arcsin u := by
  have ht0 : 0 ≤ Real.arcsin u := Real.arcsin_nonneg.2 h0
  have hs : Real.sin (Real.arcsin u) = u := Real.sin_arcsin (by linarith) h1
  have h2 := Real.sin_le ht0
  rwa [hs] at h2

/-- On `[0, π/2]`, `2·arcsin √(sin² x) = 2x` — the haversine round trip for a
pure meridian displacement. -/
theorem two_arcsin_sqrt_sin_sq {x : ℝ} (h0 : 0 ≤ x) (h2 : x ≤ Real.pi / 2) :
    2 * Real.arcsin (Real.sqrt (Real.sin x ^ 2)) = 2 * x := by
  have hpi := Real.pi_pos
  rw [Real.sqrt_sq_eq_abs,
    abs_of_nonneg (Real.sin_nonneg_of_nonneg_of_le_pi h0 (by linarith)),
    Real.arcsin_sin (by linarith) h2]

/-- Upper bound: if the haversine term is at most `s²` with `s ≤ 1`, the
central angle is less than any `r` exceeding `π·s`. -/
theorem two_arcsin_sqrt_lt {h s r : ℝ} (hs0 : 0 ≤ s) (hs1 : s ≤ 1)
    (hhs : h ≤ s ^ 2) (hr : Real.pi * s < r) :
    2 * Real.arcsin (Real.sqrt h) < r := by
  have h1 : Real.sqrt h ≤ s := by
    rw [show s = Real.sqrt (s ^ 2) from (Real.sqrt_sq hs0).symm]
    exact Real.sqrt_le_sqrt hhs
  have h2 : Real.arcsin (Real.sqrt h) ≤ Real.arcsin s := Real.monotone_arcsin h1
  have h3 : Real.arcsin s ≤ Real.pi / 2 * s := arcsin_le_mul_self hs0 hs1
  linarith

/-- Lower bound: if the haversine term is at least `s²` with `0 ≤ s ≤ 1`, the
central angle exceeds any `r` below `2·s`. -/
theorem two_arcsin_sqrt_gt {h s r : ℝ} (hs0 : 0 ≤ s) (hs1 : s ≤ 1)
    (hsh : s ^ 2 ≤ h) (hr : r < 2 * s) :
    r < 2 * Real.arcsin (Real.sqrt h) := by
  have h1 : s ≤ Real.sqrt h := by
    rw [show s = Real.sqrt (s ^ 2) from (Real.sqrt_sq hs0).symm]
    exact Real.sqrt_le_sqrt hsh
  have h2 : Real.arcsin s ≤ Real.arcsin (Real.sqrt h) := Real.monotone_arcsin h1
  have h3 : s ≤ Real.arcsin s := self_le_arcsin hs0 hs1
  linarith

theorem sin_sq_le_sq {x u : ℝ} (h : |x| ≤ u) : Real.sin x ^ 2 ≤ u ^ 2 := by
  calc Real.sin x ^ 2 = |Real.sin x| ^ 2 := (sq_abs _).symm
    _ ≤ |x| ^ 2 := pow_le_pow_left₀ (abs_nonneg _) Real.abs_sin_le_abs 2
    _ ≤ u ^ 2 := pow_le_pow_left₀ (abs_nonneg x) h 2

theorem cos_mul_cos_le_one (a b : ℝ) : Real.cos a * Real.cos b ≤ 1 := by
  calc Real.cos a * Real.cos b ≤ |Real.cos a * Real.cos b| := le_abs_self _
    _ = |Real.cos a| * |Real.cos b| := abs_mul _ _
    _ ≤ 1 := mul_le_one₀ (Real.abs_cos_le_one a) (abs_nonneg _) (Real.abs_cos_le_one b)

/-- The haversine term of a pair of displacements is bounded by the sum of
the squared half-angles. -/
theorem hav_term_le {x y a b cx cy : ℝ} (hx : Real.sin x ^ 2 ≤ cx)
    (hy : Real.sin y ^ 2 ≤ cy) :
    Real.sin x ^ 2 + Real.cos a * Real.cos b * Real.sin y ^ 2 ≤ cx + cy := by
  have h1 : Real.cos a * Real.cos b * Real.sin y ^ 2 ≤ Real.sin y ^ 2 := by
    nlinarith [cos_mul_cos_le_one a b, sq_nonneg (Real.sin y)]
  linarith

set_option maxHeartbeats 1600000 in
/-- Numeric bounds for `cos 56°`, via the quartic Taylor bound at `7π/180`
and three double-angle steps. -/
theorem cos_deg56_bounds :
    (0.558 : ℝ) ≤ Real.cos (56 * Real.pi / 180) ∧
      Real.cos (56 * Real.pi / 180) ≤ 0.5594 := by
  have hpil : (3.141592 : ℝ) < Real.pi := Real.pi_gt_d6
  have hpiu : Real.pi < 3.141593 := Real.pi_lt_d6
  set y : ℝ := 7 * Real.pi / 180 with hy
  have hy0 : 0 < y := by rw [hy]; positivity
  have hyl : (0.12217302 : ℝ) ≤ y := by rw [hy]; linarith
  have hyu : y ≤ (0.12217307 : ℝ) := by rw [hy]; linarith
  have hyabs : |y| ≤ 1 := by rw [abs_of_pos hy0]; linarith
  have hb := Real.cos_bound hyabs
  rw [abs_of_pos hy0] at hb
  rcases abs_sub_le_iff.1 hb with ⟨hb1, hb2⟩
  have hy2u : y ^ 2 ≤ 0.014926263 := by nlinarith
  have hy2l : (0.014926240 : ℝ) ≤ y ^ 2 := by nlinarith
  have hy4u : y ^ 4 ≤ 0.000223 := by nlinarith [hy2u, hy2l, sq_nonneg (y ^ 2)]
  have hy4l : (0 : ℝ) ≤ y ^ 4 := by positivity
  have hc8l : (0.9925252 : ℝ) ≤ Real.cos y := by nlinarith
  have hc8u : Real.cos y ≤ 0.9925485 := by nlinarith
  have h14 : Real.cos (14 * Real.pi / 180) = 2 * Real.cos y ^ 2 - 1 := by
    rw [show (14 : ℝ) * Real.pi / 180 = 2 * y from by rw [hy]; ring, Real.cos_two_mul]
  have hc4l : (0.9702125 : ℝ) ≤ Real.cos (14 * Real.pi / 180) := by
    rw [h14]; nlinarith [sq_nonneg (Real.cos y - 0.9925252)]
  have hc4u : Real.cos (14 * Real.pi / 180) ≤ 0.9703051 := by
    rw [h14]; nlinarith [sq_nonneg (Real.cos y - 0.9925485)]
  have h28 : Real.cos (28 * Real.pi / 180) = 2 * Real.cos (14 * Real.pi / 180) ^ 2 - 1 := by
    rw [show (28 : ℝ) * Real.pi / 180 = 2 * (14 * Real.pi / 180) from by ring,
      Real.cos_two_mul]
  have hc2l : (0.8826245 : ℝ) ≤ Real.cos (28 * Real.pi / 180) := by
    rw [h28]; nlinarith [sq_nonneg (Real.cos (14 * Real.pi / 180) - 0.9702125)]
  have hc2u : Real.cos (28 * Real.pi / 180) ≤ 0.882984 := by
    rw [h28]; nlinarith [sq_nonneg (Real.cos (14 * Real.pi / 180) - 0.9703051)]
  have h56 : Real.cos (56 * Real.pi / 180) = 2 * Real.cos (28 * Real.pi / 180) ^ 2 - 1 := by
    rw [show (56 : ℝ) * Real.pi / 180 = 2 * (28 * Real.pi / 180) from by ring,
      Real.cos_two_mul]
  constructor
  · rw [h56]; nlinarith [sq_nonneg (Real.cos (28 * Real.pi / 180) - 0.8826245)]
  · rw [h56]; nlinarith [sq_nonneg (Real.cos (28 * Real.pi / 180) - 0.882984)]

/-! ## Haversine facts at the concrete inputs used by the claims -/

/-- The haversine distance from a point to itself is 0, within any
nonnegative radius. -/
theorem haversineLE_self (lat lon r : ℚ) (hr : 0 ≤ r) :
    haversineLE lat lon lat lon r := by
  unfold haversineLE
  rw [sub_self, sub_self, zero_mul]
  norm_num
  exact_mod_cast hr

/-- For two points on the same meridian, the haversine central angle is
exactly `|Δlat|·π/180`, so the radius-query test reduces to a linear
comparison against `π`. -/
theorem hav_meridian (lat1 lat2 lon : ℚ) (d : ℝ)
    (hd : |((lat2 : ℝ) - (lat1 : ℝ))| = d) (h180 : d ≤ 180) (r : ℚ) :
    (haversineLE lat1 lon lat2 lon r ↔ d * Real.pi / 180 ≤ (r : ℝ)) := by
  have h0 : 0 ≤ d := hd ▸ abs_nonneg _
  have hpi := Real.pi_pos
  unfold haversineLE
  rw [sub_self, zero_mul]
  have hsq : Real.sin ((((lat2 : ℝ) - (lat1 : ℝ)) * Real.pi / 180) / 2) ^ 2 =
      Real.sin (d * Real.pi / 360) ^ 2 := by
    rcases abs_cases (((lat2 : ℝ) - (lat1 : ℝ))) with ⟨h1, _⟩ | ⟨h1, _⟩
    · rw [show ((lat2 : ℝ) - (lat1 : ℝ)) = d from h1.symm.trans hd]
      rw [show d * Real.pi / 180 / 2 = d * Real.pi / 360 from by ring]
    · rw [show ((lat2 : ℝ) - (lat1 : ℝ)) = -d from by
        rw [← h1.symm.trans hd]; ring]
      rw [show -d * Real.pi / 180 / 2 = -(d * Real.pi / 360) from by ring,
        Real.sin_neg, neg_sq]
  rw [hsq]
  norm_num
  rw [two_arcsin_sqrt_sin_sq (by nlinarith) (by nlinarith)]
  constructor
  · intro h; linarith
  · intro h; linarith

/-- P3 geometry, forward direction: candidate B's centroid
(56.005°, 10.005°) lies strictly inside candidate A's 1.5 km suppression
radius around (56.000°, 10.000°) (the great-circle distance is ≈ 0.64 km). -/
theorem hav_P3_AB_lt : haversineLT 56 10 56.005 10.005 (3/12742) := by
  have hpil : (3.141592 : ℝ) < Real.pi := Real.pi_gt_d6
  have hpiu : Real.pi < 3.141593 := Real.pi_lt_d6
  unfold haversineLT
  push_cast
  have ht1 : |((56.005 : ℝ) - 56) * Real.pi / 180 / 2| ≤ 0.0000437 := by
    rw [show ((56.005 : ℝ) - 56) * Real.pi / 180 / 2 = Real.pi / 72000 from by
      rw [show ((56.005 : ℝ) - 56) = 1/200 from by norm_num]; ring]
    rw [abs_of_nonneg (by positivity)]
    linarith
  have ht2 : |((10.005 : ℝ) - 10) * Real.pi / 180 / 2| ≤ 0.0000437 := by
    rw [show ((10.005 : ℝ) - 10) * Real.pi / 180 / 2 = Real.pi / 72000 from by
      rw [show ((10.005 : ℝ) - 10) = 1/200 from by norm_num]; ring]
    rw [abs_of_nonneg (by positivity)]
    linarith
  apply two_arcsin_sqrt_lt (s := 0.00007) (by norm_num) (by norm_num)
  · exact le_trans (hav_term_le (sin_sq_le_sq ht1) (sin_sq_le_sq ht2)) (by norm_num)
  · linarith

/-- P3 geometry, reverse direction: candidate A's centroid is far outside
candidate B's much smaller 0.15 km suppression radius. -/
theorem hav_P3_BA_not_le : ¬ haversineLE 56.005 10.005 56 10 (3/127420) := by
  have hpil : (3.141592 : ℝ) < Real.pi := Real.pi_gt_d6
  have hpiu : Real.pi < 3.141593 := Real.pi_lt_d6
  have hpi := Real.pi_pos
  unfold haversineLE
  push_cast
  push_neg
  have harg : ((56 : ℝ) - 56.005) * Real.pi / 180 / 2 = -(Real.pi / 72000) := by
    rw [show ((56 : ℝ) - 56.005) = -(1/200) from by norm_num]; ring
  rw [harg, Real.sin_neg, neg_sq]
  have hsin : (1/36000 : ℝ) ≤ Real.sin (Real.pi / 72000) := by
    have hj := Real.mul_le_sin (x := Real.pi / 72000) (by positivity) (by nlinarith)
    have : 2 / Real.pi * (Real.pi / 72000) = 1/36000 := by
      field_simp
      norm_num
    rwa [this] at hj
  have hs2 : ((1:ℝ)/36000) ^ 2 ≤ Real.sin (Real.pi / 72000) ^ 2 :=
    pow_le_pow_left₀ (by norm_num) hsin 2
  have hcos1 : 0 < Real.cos ((56.005 : ℝ) * Real.pi / 180) := by
    apply Real.cos_pos_of_mem_Ioo
    constructor
    · nlinarith
    · nlinarith
  have hcos2 : 0 < Real.cos ((56 : ℝ) * Real.pi / 180) := by
    apply Real.cos_pos_of_mem_Ioo
    constructor
    · nlinarith
    · nlinarith
  have hterm : 0 ≤ Real.cos ((56.005 : ℝ) * Real.pi / 180) *
      Real.cos ((56 : ℝ) * Real.pi / 180) *
      Real.sin (((10 : ℝ) - 10.005) * Real.pi / 180 / 2) ^ 2 := by
    positivity
  apply two_arcsin_sqrt_gt (s := 1/36000) (by norm_num) (by norm_num)
  · exact le_trans hs2 (le_add_of_nonneg_right hterm)
  · linarith

/-! ## Claims -/

/-- C1: the spec says an unknown scale_key is recovered with priority rank 99
in both suppression passes, with no exception escaping.  The dedup pass does
recover (rank 99, candidate processed normally), but in the merge pass the
`primary_scale` selection indexes `scale_priority[x[0]]` directly, so a
`KeyError` escapes `merge_clusters` (modelled: the pass returns `none`):
the code contradicts the documented recovery. -/
theorem C1_unknown_scale_merge_crash :
    priorityRank candW.scale = 99 ∧
    _deduplicate_clusters nearAll [candW] = [candW] ∧
    merge_clusters nearAll [candW] = none := by
  refine ⟨rfl, ?_, ?_⟩
  · simp [_deduplicate_clusters, candW, nearAll, indexList, sortStable, insertStable,
      pairRankLeB, rankLeB, priorityRank, scale_priority, dedupGo, marks]
  · simp [merge_clusters, candW, nearAll, indexList, sortStable, insertStable,
      pairRankLeB, rankLeB, priorityRank, scale_priority, mergeGo, mergeStep,
      primary_scale, groupKeyLeB, marks]

/-- C5 (P9): dedup-mode suppression is idempotent — re-running it over its
own output, with each survivor queried at its own eps_km, returns the same
list unchanged, for every input list and radius-query predicate. -/
theorem C5_dedup_resuppression_idempotent (near : RawCluster → RawCluster → Bool)
    (clusters : List RawCluster) :
    _deduplicate_clusters near (_deduplicate_clusters near clusters) =
      _deduplicate_clusters near clusters :=
  dedup_idempotent near clusters

/-- C7 (P1): a partition with fewer rows than a scale's min_samples yields an
empty result from the chunk clusterer — a normal return, not an error. -/
theorem C7_min_samples_gate (dbscan : List (ℚ × ℚ) → List ℤ) (chunk_id : Nat)
    (rows : List (ℚ × ℚ)) (scale_key : String) (cfg : ScaleConfig)
    (h : rows.length < cfg.min_samples) :
    _cluster_one_chunk dbscan chunk_id rows scale_key cfg = [] := by
  rw [_cluster_one_chunk, if_pos h]

/-- C7 witness: a 20-row partition against the small_harbors scale
(min_samples = 30). -/
theorem C7_min_samples_gate_witness :
    (List.replicate 20 ((56 : ℚ), (10 : ℚ))).length < 30 ∧
      _cluster_one_chunk (fun _ => []) 0 (List.replicate 20 ((56 : ℚ), (10 : ℚ)))
        "small_harbors" ⟨1/5, 30, "Small Harbor"⟩ = [] :=
  ⟨by decide,
    C7_min_samples_gate (fun _ => []) 0 _ "small_harbors" ⟨1/5, 30, "Small Harbor"⟩
      (by decide)⟩

/-- C2 (P2): in dedup-mode output, no survivor lies strictly within the
suppression radius (1.5 × eps_km, angular) of an earlier-processed survivor —
the output order is the processing (priority) order. -/
theorem C2_dedup_non_overlap (near : RawCluster → RawCluster → Bool)
    (clusters : List RawCluster) (hnear : NearFaithful near clusters) :
    (_deduplicate_clusters near clusters).Pairwise
      (fun a b => ¬ haversineLT a.center_lat a.center_lon b.center_lat b.center_lon
        (suppressionRadius a)) := by
  have hpw := dedup_pairwise_not_near near clusters
  refine hpw.imp_of_mem ?_
  intro a b ha hb hfalse hLT
  have hiff := hnear a (dedup_mem ha) b (dedup_mem hb)
  rw [hfalse] at hiff
  simpa using hiff.2 (haversineLT_le hLT)

/-- `nearMer` agrees with the haversine radius query on `[cM0, cM1]`. -/
theorem nearMer_faithful : NearFaithful nearMer [cM0, cM1] := by
  have hn00 : nearMer cM0 cM0 = true := by simp [nearMer]
  have hn01 : nearMer cM0 cM1 = false := by simp [nearMer, cM0, cM1]
  have hn10 : nearMer cM1 cM0 = false := by simp [nearMer, cM0, cM1]
  have hn11 : nearMer cM1 cM1 = true := by simp [nearMer]
  have hr0 : suppressionRadius cM0 = 3/12742 := by
    norm_num [suppressionRadius, cM0, EARTH_RADIUS_KM]
  have hr1 : suppressionRadius cM1 = 3/12742 := by
    norm_num [suppressionRadius, cM1, EARTH_RADIUS_KM]
  have hfar : ¬ haversineLE 0 0 1 0 (3/12742) := by
    intro h
    rw [hav_meridian 0 1 0 1 (by norm_num) (by norm_num) _] at h
    push_cast at h
    nlinarith [Real.pi_gt_three]
  have hfar2 : ¬ haversineLE 1 0 0 0 (3/12742) := by
    intro h
    rw [hav_meridian 1 0 0 1 (by norm_num) (by norm_num) _] at h
    push_cast at h
    nlinarith [Real.pi_gt_three]
  intro c1 hc1 c2 hc2
  simp only [List.mem_cons, List.not_mem_nil, or_false] at hc1 hc2
  rcases hc1 with rfl | rfl <;> rcases hc2 with rfl | rfl
  · exact iff_of_true hn00 (haversineLE_self _ _ _ (by rw [hr0]; norm_num))
  · refine iff_of_false (by rw [hn01]; simp) ?_
    show ¬ haversineLE 0 0 1 0 (suppressionRadius cM0)
    rw [hr0]; exact hfar
  · refine iff_of_false (by rw [hn10]; simp) ?_
    show ¬ haversineLE 1 0 0 0 (suppressionRadius cM1)
    rw [hr1]; exact hfar2
  · exact iff_of_true hn11 (haversineLE_self _ _ _ (by rw [hr1]; norm_num))

/-- C2 witness: on the concrete meridian pair both candidates survive, and
the later survivor is indeed not within the earlier one's 1.5 km radius. -/
theorem C2_dedup_non_overlap_witness :
    ¬ haversineLT cM0.center_lat cM0.center_lon cM1.center_lat cM1.center_lon
      (suppressionRadius cM0) := by
  have h := C2_dedup_non_overlap nearMer [cM0, cM1] nearMer_faithful
  rw [show _deduplicate_clusters nearMer [cM0, cM1] = [cM0, cM1] from by
    simp [_deduplicate_clusters, nearMer, cM0, cM1, indexList, sortStable,
      insertStable, pairRankLeB, rankLeB, priorityRank, scale_priority,
      dedupGo, marks]] at h
  exact (List.pairwise_cons.1 h).1 cM1 (List.mem_cons_self _ _)

/-- C3 (P3): candidate B (56.005°, 10.005°) is strictly inside candidate A's
1.5 km suppression radius, and dedup suppression keeps exactly A — priority
(major_ports) beats B's much larger point count. -/
theorem C3_priority_beats_count :
    haversineLT candA.center_lat candA.center_lon candB.center_lat candB.center_lon
      (suppressionRadius candA) ∧
    ∀ near : RawCluster → RawCluster → Bool, NearFaithful near [candA, candB] →
      _deduplicate_clusters near [candA, candB] = [candA] := by
  have hrA : suppressionRadius candA = 3/12742 := by
    norm_num [suppressionRadius, candA, EARTH_RADIUS_KM]
  have hLT : haversineLT candA.center_lat candA.center_lon candB.center_lat
      candB.center_lon (suppressionRadius candA) := by
    show haversineLT 56 10 56.005 10.005 (suppressionRadius candA)
    rw [hrA]
    exact hav_P3_AB_lt
  refine ⟨hLT, ?_⟩
  intro near hnear
  have hmemA : candA ∈ [candA, candB] := List.mem_cons_self _ _
  have hmemB : candB ∈ [candA, candB] :=
    List.mem_cons_of_mem _ (List.mem_cons_self _ _)
  have h1 : near candA candA = true :=
    (hnear candA hmemA candA hmemA).2
      (haversineLE_self _ _ _ (by rw [hrA]; norm_num))
  have h2 : near candA candB = true :=
    (hnear candA hmemA candB hmemB).2 (haversineLT_le hLT)
  simp only [candA, candB] at h1 h2
  simp [_deduplicate_clusters, candA, candB, indexList, sortStable, insertStable,
    pairRankLeB, rankLeB, priorityRank, scale_priority, dedupGo, marks, h1, h2]

/-- C3 witness: `nearP3` is the faithful radius query for the P3 pair, and
dedup on it returns exactly `[candA]`. -/
theorem C3_priority_beats_count_witness :
    NearFaithful nearP3 [candA, candB] ∧
      _deduplicate_clusters nearP3 [candA, candB] = [candA] := by
  have hrA : suppressionRadius candA = 3/12742 := by
    norm_num [suppressionRadius, candA, EARTH_RADIUS_KM]
  have hrB : suppressionRadius candB = 3/127420 := by
    norm_num [suppressionRadius, candB, EARTH_RADIUS_KM]
  have hf : NearFaithful nearP3 [candA, candB] := by
    have hn00 : nearP3 candA candA = true := by simp [nearP3]
    have hn01 : nearP3 candA candB = true := by simp [nearP3]
    have hn10 : nearP3 candB candA = false := by simp [nearP3, candA, candB]
    have hn11 : nearP3 candB candB = true := by simp [nearP3]
    intro c1 hc1 c2 hc2
    simp only [List.mem_cons, List.not_mem_nil, or_false] at hc1 hc2
    rcases hc1 with rfl | rfl <;> rcases hc2 with rfl | rfl
    · exact iff_of_true hn00 (haversineLE_self _ _ _ (by rw [hrA]; norm_num))
    · refine iff_of_true hn01 ?_
      show haversineLE 56 10 56.005 10.005 (suppressionRadius candA)
      rw [hrA]
      exact haversineLT_le hav_P3_AB_lt
    · refine iff_of_false (by rw [hn10]; simp) ?_
      show ¬ haversineLE 56.005 10.005 56 10 (suppressionRadius candB)
      rw [hrB]
      exact hav_P3_BA_not_le
    · exact iff_of_true hn11 (haversineLE_self _ _ _ (by rw [hrB]; norm_num))
  exact ⟨hf, C3_priority_beats_count.2 nearP3 hf⟩

/-! ## Invariants of the merge suppression walk -/

/-- Every emitted merged port of a successful merge walk is the result of
`mergeStep` on some entry of `rest`. -/
theorem mergeGo_mem {near : RawCluster → RawCluster → Bool}
    {all : List (Nat × RawCluster)} {m : MergedPort} :
    ∀ {rest : List (Nat × RawCluster)} {taken : List Nat} {out : List MergedPort},
      mergeGo near all rest taken = some out → m ∈ out →
      ∃ p, p ∈ rest ∧ mergeStep near all p.2 = some m := by
  intro rest
  induction rest with
  | nil =>
    intro taken out hout hm
    rw [mergeGo] at hout
    cases hout
    simp at hm
  | cons p rest ih =>
    intro taken out hout hm
    rw [mergeGo] at hout
    by_cases hp : p.1 ∈ taken
    · rw [if_pos hp] at hout
      rcases ih hout hm with ⟨q, hq, hstep⟩
      exact ⟨q, List.mem_cons_of_mem _ hq, hstep⟩
    · rw [if_neg hp] at hout
      cases hstep : mergeStep near all p.2 with
      | none => rw [hstep] at hout; simp at hout
      | some m1 =>
        rw [hstep] at hout
        cases hrec : mergeGo near all rest (taken ++ marks near all p.2) with
        | none => rw [hrec] at hout; simp at hout
        | some ms =>
          rw [hrec] at hout
          simp only [Option.some.injEq] at hout
          subst hout
          rcases List.mem_cons.1 hm with rfl | hm1
          · exact ⟨p, List.mem_cons_self _ _, hstep⟩
          · rcases ih hrec hm1 with ⟨q, hq, hstep1⟩
            exact ⟨q, List.mem_cons_of_mem _ hq, hstep1⟩

/-- What one merge absorption step guarantees about the emitted port, in
terms of the absorbed group `G` (the winner's whole radius query over all
candidates): exact point-count conservation, absorbed count, point union, and
centroid = mean of the unioned points. -/
theorem mergeStep_spec {near : RawCluster → RawCluster → Bool}
    {all : List (Nat × RawCluster)} {c : RawCluster} {m : MergedPort}
    (h : mergeStep near all c = some m) :
    m.point_count = (((all.filter (fun p => near c p.2)).map Prod.snd).map
        RawCluster.point_count).sum ∧
    m.dbscan_clusters = ((all.filter (fun p => near c p.2)).map Prod.snd).length ∧
    1 ≤ m.dbscan_clusters ∧
    m.points = (((all.filter (fun p => near c p.2)).map Prod.snd).map
        RawCluster.points).flatten ∧
    m.center_lat = meanQ (m.points.map Prod.fst) ∧
    m.center_lon = meanQ (m.points.map Prod.snd) := by
  simp only [mergeStep] at h
  by_cases hne : all.filter (fun p => near c p.2) = []
  · rw [if_pos hne] at h; simp at h
  · rw [if_neg hne] at h
    cases hps : primary_scale ((all.filter (fun p => near c p.2)).map
        (fun p => (p.2.scale, p.2.point_count))) with
    | none => rw [hps] at h; simp at h
    | some sc =>
      rw [hps] at h
      simp only [Option.some.injEq] at h
      subst h
      refine ⟨by simp [List.map_map]; rfl, by simp, ?_, by simp [List.map_map]; rfl,
        rfl, rfl⟩
      simpa [Nat.succ_le_iff, List.length_pos] using hne

/-- Every processed winner of the merge walk is one of the input clusters. -/
theorem merge_clusters_spec {near : RawCluster → RawCluster → Bool}
    {clusters : List RawCluster} {out : List MergedPort}
    (hout : merge_clusters near clusters = some out) {m : MergedPort}
    (hm : m ∈ out) :
    ∃ c, c ∈ clusters ∧
      mergeStep near (indexList 0 clusters) c = some m := by
  rw [merge_clusters] at hout
  by_cases hne : clusters = []
  · rw [if_pos hne] at hout
    cases hout
    simp at hm
  · rw [if_neg hne] at hout
    rcases mergeGo_mem hout hm with ⟨p, hp, hstep⟩
    exact ⟨p.2, mem_indexList_snd ((mem_sortStable _ _ _).1 hp), hstep⟩

/-- C4 (P4): for every emitted MergedPort of a successful merge pass, there
is a winning candidate whose absorbed group `G` (its full radius query over
the candidate list) accounts exactly for the port: point_count is the sum of
the group's point_counts, absorbed_count (`dbscan_clusters`) is the group
size (≥ 1), the member points are the union of the group's points, and the
centroid is the arithmetic mean of that union. -/
theorem C4_merge_point_conservation (near : RawCluster → RawCluster → Bool)
    (clusters : List RawCluster) (out : List MergedPort)
    (hout : merge_clusters near clusters = some out)
    (m : MergedPort) (hm : m ∈ out) :
    ∃ c G, c ∈ clusters ∧
      G = ((indexList 0 clusters).filter (fun p => near c p.2)).map Prod.snd ∧
      m.point_count = (G.map RawCluster.point_count).sum ∧
      m.dbscan_clusters = G.length ∧
      1 ≤ m.dbscan_clusters ∧
      m.points = (G.map RawCluster.points).flatten ∧
      m.center_lat = meanQ (m.points.map Prod.fst) ∧
      m.center_lon = meanQ (m.points.map Prod.snd) := by
  rcases merge_clusters_spec hout hm with ⟨c, hc, hstep⟩
  rcases mergeStep_spec hstep with ⟨h1, h2, h3, h4, h5, h6⟩
  exact ⟨c, _, hc, rfl, h1, h2, h3, h4, h5, h6⟩

/-- C4 witness: the singleton merge run, checked against the conservation
properties. -/
theorem C4_merge_point_conservation_witness :
    ∃ c G, c ∈ [candA] ∧
      G = ((indexList 0 [candA]).filter (fun p => nearAll c p.2)).map Prod.snd ∧
      portA.point_count = (G.map RawCluster.point_count).sum ∧
      portA.dbscan_clusters = G.length ∧
      1 ≤ portA.dbscan_clusters ∧
      portA.points = (G.map RawCluster.points).flatten ∧
      portA.center_lat = meanQ (portA.points.map Prod.fst) ∧
      portA.center_lon = meanQ (portA.points.map Prod.snd) :=
  C4_merge_point_conservation nearAll [candA] [portA]
    (by norm_num [merge_clusters, nearAll, candA, portA, indexList, sortStable,
      insertStable, pairRankLeB, rankLeB, priorityRank, scale_priority, mergeGo,
      mergeStep, primary_scale, groupKeyLeB, marks, meanQ])
    portA (List.mem_cons_self _ _)

/-- `nearC9` agrees with the haversine radius queries on `[cX, cY, cZ]`. -/
theorem nearC9_faithful : NearFaithful nearC9 [cX, cY, cZ] := by
  have hrX : suppressionRadius cX = 39/127420 := by
    norm_num [suppressionRadius, cX, EARTH_RADIUS_KM]
  have hrY : suppressionRadius cY = 39/127420 := by
    norm_num [suppressionRadius, cY, EARTH_RADIUS_KM]
  have hrZ : suppressionRadius cZ = 3/63710 := by
    norm_num [suppressionRadius, cZ, EARTH_RADIUS_KM]
  have hpi3 := Real.pi_gt_three
  have hpi4 := Real.pi_le_four
  have hXY : ¬ haversineLE 0 0 (27/1000) 0 (39/127420) := by
    intro h
    rw [hav_meridian 0 (27/1000) 0 (27/1000) (by push_cast; norm_num)
      (by norm_num) _] at h
    push_cast at h
    nlinarith
  have hYX : ¬ haversineLE (27/1000) 0 0 0 (39/127420) := by
    intro h
    rw [hav_meridian (27/1000) 0 0 (27/1000) (by push_cast; norm_num)
      (by norm_num) _] at h
    push_cast at h
    nlinarith
  have hXZ : haversineLE 0 0 (27/2000) 0 (39/127420) := by
    rw [hav_meridian 0 (27/2000) 0 (27/2000) (by push_cast; norm_num)
      (by norm_num) _]
    push_cast
    nlinarith
  have hYZ : haversineLE (27/1000) 0 (27/2000) 0 (39/127420) := by
    rw [hav_meridian (27/1000) (27/2000) 0 (27/2000) (by push_cast; norm_num)
      (by norm_num) _]
    push_cast
    nlinarith
  have hZX : ¬ haversineLE (27/2000) 0 0 0 (3/63710) := by
    intro h
    rw [hav_meridian (27/2000) 0 0 (27/2000) (by push_cast; norm_num)
      (by norm_num) _] at h
    push_cast at h
    nlinarith
  have hZY : ¬ haversineLE (27/2000) 0 (27/1000) 0 (3/63710) := by
    intro h
    rw [hav_meridian (27/2000) (27/1000) 0 (27/2000) (by push_cast; norm_num)
      (by norm_num) _] at h
    push_cast at h
    nlinarith
  intro c1 hc1 c2 hc2
  simp only [List.mem_cons, List.not_mem_nil, or_false] at hc1 hc2
  rcases hc1 with rfl | rfl | rfl <;> rcases hc2 with rfl | rfl | rfl
  · exact iff_of_true (by simp [nearC9]) (haversineLE_self _ _ _ (by rw [hrX]; norm_num))
  · refine iff_of_false (by simp [nearC9, cX, cY, cZ]) ?_
    show ¬ haversineLE 0 0 (27/1000) 0 (suppressionRadius cX)
    rw [hrX]; exact hXY
  · refine iff_of_true (by simp [nearC9, cX, cY, cZ]) ?_
    show haversineLE 0 0 (27/2000) 0 (suppressionRadius cX)
    rw [hrX]; exact hXZ
  · refine iff_of_false (by simp [nearC9, cX, cY, cZ]) ?_
    show ¬ haversineLE (27/1000) 0 0 0 (suppressionRadius cY)
    rw [hrY]; exact hYX
  · exact iff_of_true (by simp [nearC9, cX, cY, cZ])
      (haversineLE_self _ _ _ (by rw [hrY]; norm_num))
  · refine iff_of_true (by simp [nearC9, cX, cY, cZ]) ?_
    show haversineLE (27/1000) 0 (27/2000) 0 (suppressionRadius cY)
    rw [hrY]; exact hYZ
  · refine iff_of_false (by simp [nearC9, cX, cY, cZ]) ?_
    show ¬ haversineLE (27/2000) 0 0 0 (suppressionRadius cZ)
    rw [hrZ]; exact hZX
  · refine iff_of_false (by simp [nearC9, cX, cY, cZ]) ?_
    show ¬ haversineLE (27/2000) 0 (27/1000) 0 (suppressionRadius cZ)
    rw [hrZ]; exact hZY
  · exact iff_of_true (by simp [nearC9, cX, cY, cZ])
      (haversineLE_self _ _ _ (by rw [hrZ]; norm_num))

/-- C9 (implicit): a merge winner absorbs its whole radius query with no
exclusion of already-consumed records, so `cZ` (within 1.95 km of both `cX`
and `cY`, which do not suppress each other) is absorbed into two distinct
merged ports: its 7 points are double-counted and the output total 204
exceeds the input total 197. -/
theorem C9_merge_double_absorption :
    NearFaithful nearC9 [cX, cY, cZ] ∧
    merge_clusters nearC9 [cX, cY, cZ] = some [portX, portY] ∧
    portX.point_count + portY.point_count = 204 ∧
    ([cX, cY, cZ].map RawCluster.point_count).sum = 197 ∧
    197 < 204 := by
  refine ⟨nearC9_faithful, ?_, by norm_num [portX, portY], by norm_num [cX, cY, cZ],
    by norm_num⟩
  simp [merge_clusters, nearC9, cX, cY, cZ, portX, portY, indexList, sortStable,
    insertStable, pairRankLeB, rankLeB, priorityRank, scale_priority, mergeGo,
    mergeStep, primary_scale, groupKeyLeB, marks, meanQ]
  norm_num

/-! ## Invariants of `compute_area_and_categorize` -/

/-- Any emitted FinalPort passed the global area filter, and carries the
category/color chosen by the first-match scan for its own area. -/
theorem processPort_some {hull : List (ℚ × ℚ) → Option (List (ℚ × ℚ))}
    {cosdeg : ℚ → ℚ} {hyp : ℚ → ℚ → ℚ} {port : MergedPort} {fp : FinalPort}
    (h : processPort hull cosdeg hyp port = some fp) :
    MIN_PORT_AREA_KM2 ≤ fp.area_km2 ∧ fp.area_km2 ≤ MAX_PORT_AREA_KM2 ∧
    fp.category = (categorize fp.area_km2).1 ∧
    fp.color = (categorize fp.area_km2).2 := by
  simp only [processPort] at h
  split at h
  · exact absurd h (by simp)
  · split at h
    · exact absurd h (by simp)
    · split at h
      · rename_i hcond
        simp only [Option.some.injEq] at h
        subst h
        exact ⟨hcond.1, hcond.2, rfl, rfl⟩
      · exact absurd h (by simp)

/-- C8 (P7 + P8): the final port list is non-increasing in area, and every
member's area lies within the global `[MIN_PORT_AREA_KM2, MAX_PORT_AREA_KM2]`
bounds — for any injected hull, cosine and hypot primitives. -/
theorem C8_final_sorted_and_bounded (hull : List (ℚ × ℚ) → Option (List (ℚ × ℚ)))
    (cosdeg : ℚ → ℚ) (hyp : ℚ → ℚ → ℚ) (final_ports : List MergedPort) :
    (compute_area_and_categorize hull cosdeg hyp final_ports).Pairwise
      (fun a b => b.area_km2 ≤ a.area_km2) ∧
    ∀ fp ∈ compute_area_and_categorize hull cosdeg hyp final_ports,
      MIN_PORT_AREA_KM2 ≤ fp.area_km2 ∧ fp.area_km2 ≤ MAX_PORT_AREA_KM2 := by
  constructor
  · rw [compute_area_and_categorize]
    by_cases hne : final_ports = []
    · rw [if_pos hne]; exact List.Pairwise.nil
    · rw [if_neg hne]
      have h := sortStable_pairwise areaGeB_total areaGeB_trans
        (final_ports.filterMap (processPort hull cosdeg hyp))
      exact h.imp (fun hab => by simpa [areaGeB] using hab)
  · intro fp hfp
    rw [compute_area_and_categorize] at hfp
    by_cases hne : final_ports = []
    · rw [if_pos hne] at hfp; simp at hfp
    · rw [if_neg hne] at hfp
      rcases List.mem_filterMap.1 ((mem_sortStable _ _ _).1 hfp) with ⟨port, _, hsome⟩
      exact ⟨(processPort_some hsome).1, (processPort_some hsome).2.1⟩

/-- First-match scan: an area in `[0.5, 2)` lands in the Regional bucket. -/
theorem categorize_regional {a : ℚ} (h1 : 1/2 ≤ a) (h2 : a < 2) :
    categorize a = ("Regional", "orange") := by
  have d1 : decide ((2:ℚ) ≤ a) = false := decide_eq_false (by linarith)
  have d2 : decide ((2:ℚ)⁻¹ ≤ a) = true := decide_eq_true (by linarith)
  have d3 : decide (a ≤ (2:ℚ)) = true := decide_eq_true (le_of_lt h2)
  simp [categorize, PORT_SIZE_CATEGORIES, List.find?, d1, d2, d3]

/-- First-match scan: an area in one of the coverage gaps (15, 20) or
(0.005, 0.01) matches no bucket (the Uncategorized row's own [0,0] bounds
never match) and falls through to the fallback. -/
theorem categorize_gap {a : ℚ}
    (h : (15 < a ∧ a < 20) ∨ (1/200 < a ∧ a < 1/100)) :
    categorize a = ("Uncategorized", "gray") := by
  rcases h with ⟨h1, h2⟩ | ⟨h1, h2⟩
  · have d1 : decide (a ≤ (15:ℚ)) = false := decide_eq_false (by linarith)
    have d2 : decide (a ≤ (2:ℚ)) = false := decide_eq_false (by linarith)
    have d3 : decide (a ≤ (2:ℚ)⁻¹) = false := decide_eq_false (by
      rw [inv_eq_one_div]; linarith)
    have d4 : decide (a ≤ (10:ℚ)⁻¹) = false := decide_eq_false (by
      rw [inv_eq_one_div]; linarith)
    have d5 : decide (a ≤ (0:ℚ)) = false := decide_eq_false (by linarith)
    simp [categorize, PORT_SIZE_CATEGORIES, List.find?, d1, d2, d3, d4, d5]
  · have d1 : decide ((2:ℚ) ≤ a) = false := decide_eq_false (by linarith)
    have d2 : decide ((2:ℚ)⁻¹ ≤ a) = false := decide_eq_false (by
      rw [inv_eq_one_div]; linarith)
    have d3 : decide ((10:ℚ)⁻¹ ≤ a) = false := decide_eq_false (by
      rw [inv_eq_one_div]; linarith)
    have d4 : decide ((100:ℚ)⁻¹ ≤ a) = false := decide_eq_false (by
      rw [inv_eq_one_div]; linarith)
    have d5 : decide (a ≤ (0:ℚ)) = false := decide_eq_false (by linarith)
    simp [categorize, PORT_SIZE_CATEGORIES, List.find?, d1, d2, d3, d4, d5]

/-- C10 (implicit): the size buckets do not cover the full legal area range —
a port whose computed area lies strictly between 15 and 20, or strictly
between 0.005 and 0.01, passes the global filter and appears in the final
output as "Uncategorized"/gray. -/
theorem C10_gap_passes_as_uncategorized
    (hull : List (ℚ × ℚ) → Option (List (ℚ × ℚ))) (cosdeg : ℚ → ℚ)
    (hyp : ℚ → ℚ → ℚ) (final_ports : List MergedPort) (port : MergedPort)
    (hull_pts : List (ℚ × ℚ)) (hmem : port ∈ final_ports)
    (hlen : ¬ port.points.length < 3) (hh : hull port.points = some hull_pts)
    (area : ℚ)
    (harea : area = ptp (hull_pts.map Prod.fst) *
      (ptp (hull_pts.map Prod.snd) * cosdeg (meanQ (hull_pts.map Prod.fst))) *
      111 * 111)
    (hgap : (15 < area ∧ area < 20) ∨ (1/200 < area ∧ area < 1/100)) :
    ∃ fp, processPort hull cosdeg hyp port = some fp ∧ fp.area_km2 = area ∧
      fp.category = "Uncategorized" ∧ fp.color = "gray" ∧
      fp ∈ compute_area_and_categorize hull cosdeg hyp final_ports := by
  have hbound : MIN_PORT_AREA_KM2 ≤ area ∧ area ≤ MAX_PORT_AREA_KM2 := by
    rw [MIN_PORT_AREA_KM2, MAX_PORT_AREA_KM2]
    rcases hgap with ⟨h1, h2⟩ | ⟨h1, h2⟩ <;> constructor <;> linarith
  have hsome : processPort hull cosdeg hyp port = some
      { center_lat := port.center_lat, center_lon := port.center_lon,
        points := port.points, point_count := port.point_count,
        detected_scale := port.detected_scale,
        dbscan_clusters := port.dbscan_clusters,
        area_km2 := area,
        max_distance_km :=
          maxPairDist hyp (cosdeg (meanQ (hull_pts.map Prod.fst))) hull_pts,
        vessel_density := if 0 < area then (port.point_count : ℚ) / area else 0,
        category := (categorize area).1, color := (categorize area).2 } := by
    simp only [processPort, if_neg hlen, hh]
    rw [← harea, if_pos hbound]
  refine ⟨_, hsome, rfl, ?_, ?_, ?_⟩
  · simp [categorize_gap hgap]
  · simp [categorize_gap hgap]
  · rw [compute_area_and_categorize, if_neg (List.ne_nil_of_mem hmem),
      mem_sortStable]
    exact List.mem_filterMap.2 ⟨port, hmem, hsome⟩

/-- C6 (P5): with hull latitude range 0.01°, longitude range 0.01° and mean
hull latitude 56°, the computed area is exactly
`0.01 × (0.01 × cos 56°) × 111 × 111` (with the injected cosine within
floating-point tolerance of the real `cos 56°`), ≈ 0.688 km², and the
first-match scan of the configured table assigns category "Regional". -/
theorem C6_area_formula_and_regional
    (hull : List (ℚ × ℚ) → Option (List (ℚ × ℚ))) (cosdeg : ℚ → ℚ)
    (hyp : ℚ → ℚ → ℚ) (port : MergedPort) (hull_pts : List (ℚ × ℚ))
    (hlen : ¬ port.points.length < 3) (hh : hull port.points = some hull_pts)
    (hlatr : ptp (hull_pts.map Prod.fst) = 1/100)
    (hlonr : ptp (hull_pts.map Prod.snd) = 1/100)
    (havg : meanQ (hull_pts.map Prod.fst) = 56)
    (hcos : |(cosdeg 56 : ℝ) - Real.cos (56 * Real.pi / 180)| ≤ 1/1000) :
    ∃ fp, processPort hull cosdeg hyp port = some fp ∧
      fp.area_km2 = 1/100 * (1/100 * cosdeg 56) * 111 * 111 ∧
      |(fp.area_km2 : ℝ) - 0.688| ≤ 1/100 ∧
      fp.category = "Regional" := by
  rcases cos_deg56_bounds with ⟨hcl, hcu⟩
  rcases abs_le.1 hcos with ⟨hc1, hc2⟩
  have hql : (557/1000 : ℚ) ≤ cosdeg 56 := by
    have h : (((557:ℚ)/1000 : ℚ) : ℝ) ≤ ((cosdeg 56 : ℚ) : ℝ) := by
      push_cast
      linarith
    exact_mod_cast h
  have hqu : cosdeg 56 ≤ (5604/10000 : ℚ) := by
    have h : ((cosdeg 56 : ℚ) : ℝ) ≤ (((5604:ℚ)/10000 : ℚ) : ℝ) := by
      push_cast
      linarith
    exact_mod_cast h
  have hA : (1:ℚ)/100 * (1/100 * cosdeg 56) * 111 * 111 =
      12321/10000 * cosdeg 56 := by ring
  have hbound : MIN_PORT_AREA_KM2 ≤ 1/100 * (1/100 * cosdeg 56) * 111 * 111 ∧
      1/100 * (1/100 * cosdeg 56) * 111 * 111 ≤ MAX_PORT_AREA_KM2 := by
    rw [hA, MIN_PORT_AREA_KM2, MAX_PORT_AREA_KM2]
    constructor <;> nlinarith
  have hsome : processPort hull cosdeg hyp port = some
      { center_lat := port.center_lat, center_lon := port.center_lon,
        points := port.points, point_count := port.point_count,
        detected_scale := port.detected_scale,
        dbscan_clusters := port.dbscan_clusters,
        area_km2 := 1/100 * (1/100 * cosdeg 56) * 111 * 111,
        max_distance_km := maxPairDist hyp (cosdeg 56) hull_pts,
        vessel_density := if 0 < 1/100 * (1/100 * cosdeg 56) * 111 * 111 then
          (port.point_count : ℚ) / (1/100 * (1/100 * cosdeg 56) * 111 * 111)
          else 0,
        category := (categorize (1/100 * (1/100 * cosdeg 56) * 111 * 111)).1,
        color := (categorize (1/100 * (1/100 * cosdeg 56) * 111 * 111)).2 } := by
    simp only [processPort, if_neg hlen, hh, hlatr, hlonr, havg]
    rw [if_pos hbound]
  have hcat : categorize (1/100 * (1/100 * cosdeg 56) * 111 * 111) =
      ("Regional", "orange") := by
    apply categorize_regional
    · rw [hA]; nlinarith
    · rw [hA]; nlinarith
  refine ⟨_, hsome, rfl, ?_, by rw [hcat]⟩
  push_cast
  rw [abs_le]
  constructor <;> nlinarith

/-- The per-port processing of `portW` emits exactly `fpW`. -/
theorem processPort_portW : processPort hullW cosW hypW portW = some fpW := by
  have hcatW : categorize (12321/625 : ℚ) = ("Uncategorized", "gray") :=
    categorize_gap (Or.inl (by norm_num))
  simp only [processPort, hullW]
  norm_num [portW, fpW, cosW, hypW, ptp, maxQ, minQ, meanQ, max_def, min_def,
    maxPairDist, MIN_PORT_AREA_KM2, MAX_PORT_AREA_KM2, hcatW]

/-- C8 witness: the concrete output member `fpW` satisfies the global area
bounds. -/
theorem C8_final_sorted_and_bounded_witness :
    MIN_PORT_AREA_KM2 ≤ fpW.area_km2 ∧ fpW.area_km2 ≤ MAX_PORT_AREA_KM2 :=
  (C8_final_sorted_and_bounded hullW cosW hypW [portW]).2 fpW (by
    rw [compute_area_and_categorize, if_neg (by simp), mem_sortStable]
    exact List.mem_filterMap.2 ⟨portW, List.mem_cons_self _ _, processPort_portW⟩)

/-- C10 witness: the concrete 19.7136 km² port passes the filter and comes
out "Uncategorized"/gray. -/
theorem C10_gap_passes_as_uncategorized_witness :
    ∃ fp, processPort hullW cosW hypW portW = some fp ∧
      fp.area_km2 = 12321/625 ∧
      fp.category = "Uncategorized" ∧ fp.color = "gray" ∧
      fp ∈ compute_area_and_categorize hullW cosW hypW [portW] := by
  apply C10_gap_passes_as_uncategorized hullW cosW hypW [portW] portW portW.points
    (List.mem_cons_self _ _) (by norm_num [portW]) rfl (12321/625)
  · norm_num [portW, cosW, ptp, maxQ, minQ, meanQ, max_def, min_def]
  · left
    constructor <;> norm_num

/-- C6 witness: the concrete port with the 0.5587 cosine sample. -/
theorem C6_area_formula_and_regional_witness :
    ∃ fp, processPort hullW cosC6 hypW portC6 = some fp ∧
      fp.area_km2 = 1/100 * (1/100 * cosC6 56) * 111 * 111 ∧
      |(fp.area_km2 : ℝ) - 0.688| ≤ 1/100 ∧
      fp.category = "Regional" := by
  apply C6_area_formula_and_regional hullW cosC6 hypW portC6 portC6.points
    (by norm_num [portC6]) rfl
  · norm_num [portC6, ptp, maxQ, minQ, max_def, min_def]
  · norm_num [portC6, ptp, maxQ, minQ, max_def, min_def]
  · norm_num [portC6, meanQ]
  · show |((5587/10000 : ℚ) : ℝ) - Real.cos (56 * Real.pi / 180)| ≤ 1/1000
    rcases cos_deg56_bounds with ⟨hcl, hcu⟩
    rw [abs_le]
    push_cast
    constructor <;> linarith

end PortDetect
